import Mathlib

/-!
Shallow embedding of the sampling-and-logging pipeline of `src/main/fs_helpers.c`
(ESP32 SPIFFS / ADC lab firmware), together with theorems settling the spec
claims about it.

Modelling conventions:
* File contents and console output are byte strings, modelled as `List Char`.
* The hardware ADC peripheral is an environment `AdcEnv` giving, per channel
  and per conversion index, the status returned by `adc_oneshot_read` and the
  value it leaves in the output variable `raw`.  The C source of `adc_read_avg`
  discards the returned status; the embedding keeps the status in the
  environment so that claims about error handling can be stated.
* Machine integers are modelled as `Int` with widths made explicit where they
  matter: the `long sum` accumulator of `adc_read_avg` is 32 bits wide on the
  ESP32 (ILP32) target, so each `sum += raw` is modelled with two's-complement
  32-bit wraparound (`wrap32`, `sum32`).  C integer division truncates toward
  zero and is undefined on a zero divisor, modelled by `cDiv` returning
  `Option Int` (`Int.tdiv`, `none` on zero divisor).
* The float temperature computation and its `%.2f` rendering inside
  `log_thermistor_samples_csv` (fs_helpers.c lines 199-217) are IEEE `float`
  operations; the per-iteration rendered temperature string is abstracted as a
  parameter `fmt : Nat → Str`, while the ideal real-valued Beta-equation
  conversion is embedded separately as `thermistor_celsius` over `ℝ`.
* Stateful I/O of one call to `log_thermistor_samples_csv` is embedded as a
  big-step function from the store state (the file at `path`, `none` when the
  file does not exist) to the new store state plus a trace of I/O events, so
  that claims about header emission and handle lifetime can be stated.
-/

/-- Byte strings (file contents, console output) as lists of characters. -/
abbrev Str := List Char

/-- ADC_BITS from fs_helpers.h: 12-bit converter. -/
def ADC_BITS : Nat := 12

/-- ADC_MAX from fs_helpers.h: `(1 << ADC_BITS) - 1 = 4095`. -/
def ADC_MAX : Int := 2 ^ ADC_BITS - 1

/-- SAMPLES from fs_helpers.h: number of raw conversions averaged per reading. -/
def SAMPLES : Int := 8

/-- C integer division: truncates toward zero, undefined (UB) on zero divisor. -/
def cDiv (a b : Int) : Option Int := if b = 0 then none else some (a.tdiv b)

/-- Hardware ADC environment: for channel `ch` and conversion index `i`,
`errAt ch i` is whether `adc_oneshot_read` reports an error, and `rawAt ch i`
is the value held by the output variable `raw` after the call (the variable is
initialised to `0` by the source before each call). -/
structure AdcEnv where
  errAt : Nat → Nat → Bool
  rawAt : Nat → Nat → Int

/-- Two's-complement wraparound to a 32-bit signed integer: the value a C
32-bit signed variable holds after an addition whose mathematical result is
`a` (`2147483648 = 2^31`, `4294967296 = 2^32`). -/
def wrap32 (a : Int) : Int := (a + 2147483648) % 4294967296 - 2147483648

/-- The accumulator loop of `adc_read_avg`: `long sum = 0; ... sum += raw;`
run for `n` iterations with `f i` the raw value of iteration `i`.  On the
ESP32 (ILP32) target `long` is 32 bits, so each addition wraps at 32 bits. -/
def sum32 (f : Nat → Int) : Nat → Int
  | 0 => 0
  | n + 1 => wrap32 (sum32 f n + f n)

/-- Embedding of `adc_read_avg` (fs_helpers.c lines 163-172):
`long sum = 0; for (i = 0; i < samples; ++i) { adc_oneshot_read(.., ch, &raw);
sum += raw; vTaskDelay(2); } return (int)(sum / samples);`.
The loop runs `max samples 0` times (C `for` with signed bound); the status
returned by `adc_oneshot_read` is discarded by the source, so the result
depends only on `rawAt`; the 32-bit `long` accumulator wraps (`sum32`); the
final division is C division, undefined when `samples = 0` (the cast to `int`
is the identity on ILP32, where `long` and `int` are both 32 bits). -/
def adc_read_avg (env : AdcEnv) (ch : Nat) (samples : Int) : Option Int :=
  cDiv (sum32 (env.rawAt ch) samples.toNat) samples

/-- Ideal real-valued embedding of the thermistor conversion inside
`log_thermistor_samples_csv` (fs_helpers.c lines 199-215), with the source's
constants `Vin = 3.3`, `R_fixed = R0 = 10000`, `T0 = 25 + 273.15`, `B = 3950`:
`VRT = raw*Vin/ADC_MAX`, `RT = R_fixed*VRT/(Vin-VRT)`,
`T_kelvin = 1/((1/T0) + log(RT/R0)/B)`, result `T_kelvin - 273.15`.
The source computes in IEEE `float`; this is its exact-arithmetic idealization. -/
noncomputable def thermistor_celsius (raw : ℝ) : ℝ :=
  1 / (1 / (25 + 273.15) +
      Real.log (10000 * (raw * 3.3 / 4095) / (3.3 - raw * 3.3 / 4095) / 10000) / 3950)
    - 273.15

/-- I/O events emitted by one call to `log_thermistor_samples_csv`:
`evOpen`/`evClose` bracket the `fopen`/`fclose` of the store handle,
`evHeader` is the header `fprintf`, `evProgress` the per-iteration console
`printf`, `evRow i` the row `fprintf` of iteration `i`, `evFlush` the
`fflush`, `evDelay` the inter-sample `vTaskDelay(period)`, and `evDiagFail`
the console diagnostic printed when `fopen` fails. -/
inductive Ev where
  | evOpen
  | evHeader
  | evProgress
  | evRow (i : Nat)
  | evFlush
  | evDelay
  | evClose
  | evDiagFail
deriving DecidableEq

/-- The fixed header line written by `log_thermistor_samples_csv`:
`fprintf(f, "index,temperature_C\n")`. -/
def thermHeader : Str := "index,temperature_C\n".toList

/-- One data row of `log_thermistor_samples_csv`:
`fprintf(f, "#%d, %.2f°C\n", i, temperature)`, with the rendered `%.2f`
temperature string passed in as `t`. -/
def thermRow (i : Nat) (t : Str) : Str :=
  "#".toList ++ (toString i).toList ++ ", ".toList ++ t ++ "°C\n".toList

/-- The data rows written by iterations `0 .. n-1`, in call order. -/
def thermRowList (fmt : Nat → Str) (n : Nat) : List Str :=
  (List.range n).map fun i => thermRow i (fmt i)

/-- Trace of events emitted by the loop body for iterations `0 .. n-1`:
console progress print, row write, flush, inter-sample delay, per iteration. -/
def loopEvs : Nat → List Ev
  | 0 => []
  | n + 1 => loopEvs n ++ [Ev.evProgress, Ev.evRow n, Ev.evFlush, Ev.evDelay]

/-- Embedding of `log_thermistor_samples_csv` (fs_helpers.c lines 182-223) as a
big-step function on the store state of the file at `path`.
`openOk` is whether `fopen(path, "a")` succeeds; on failure the source prints a
diagnostic and returns, leaving the store untouched.  On success, append mode
creates the file when absent; the header is written iff `ftell` after
`fseek(SEEK_END)` is `0` (file empty at open time); then each iteration
appends one row (its rendered temperature string abstracted as `fmt i`) and
flushes, with an inter-sample delay, and the handle is closed after the loop. -/
def log_thermistor_samples_csv (openOk : Bool) (file : Option Str) (samples : Nat)
    (fmt : Nat → Str) : Option Str × List Ev :=
  if openOk then
    let init := file.getD []
    let withHeader := if init.length = 0 then init ++ thermHeader else init
    let headerEvs := if init.length = 0 then [Ev.evHeader] else []
    (some (withHeader ++ (thermRowList fmt samples).flatten),
      Ev.evOpen :: (headerEvs ++ loopEvs samples ++ [Ev.evClose]))
  else
    (file, [Ev.evDiagFail])

/-- The fixed error CSV printed by `print_csv_file_only` when `fopen` fails. -/
def missingFileCsv : Str := "error,message\r\n,Could not open file\r\n".toList

/-- The chunked copy loop of `print_csv_file_only`:
`while ((n = fread(buf, 1, 256, f)) > 0) fwrite(buf, 1, n, stdout);`
reads at most 256 bytes per iteration and writes each chunk to the sink. -/
def streamChunks (s : Str) : Str :=
  match s with
  | [] => []
  | c :: rest => (c :: rest).take 256 ++ streamChunks ((c :: rest).drop 256)
termination_by s.length
decreasing_by simp only [List.length_drop, List.length_cons]; omega

/-- Embedding of `print_csv_file_only` (fs_helpers.c lines 239-259): the bytes
written to the output sink.  If the file exists its contents are copied in
256-byte chunks; otherwise the fixed two-line error CSV is printed.  (The
global log-verbosity toggle has no effect on the bytes produced.) -/
def print_csv_file_only (file : Option Str) : Str :=
  match file with
  | some c => streamChunks c
  | none => missingFileCsv

/-- A sequence of successful `log_thermistor_samples_csv` calls, each given by
its sample count and its per-iteration rendered temperature strings, threaded
through the store state and accumulating the traces of all calls. -/
def runLogTr (st : Option Str × List Ev) : List (Nat × (Nat → Str)) → Option Str × List Ev
  | [] => st
  | (n, fmt) :: cs =>
    let r := log_thermistor_samples_csv true st.1 n fmt
    runLogTr (r.1, st.2 ++ r.2) cs

/-- Number of occurrences of event `e` in a trace. -/
def countEv (e : Ev) : List Ev → Nat
  | [] => 0
  | x :: tr => (if x = e then 1 else 0) + countEv e tr

/-- Whether some `evDelay` in the trace happens while the store handle is held:
scans the trace keeping the number of currently open handles, and flags a
delay event occurring with at least one handle open. -/
def delayHeldAux : Nat → List Ev → Bool
  | _, [] => false
  | d, Ev.evOpen :: tr => delayHeldAux (d + 1) tr
  | d, Ev.evClose :: tr => delayHeldAux (d - 1) tr
  | d, Ev.evDelay :: tr => decide (0 < d) || delayHeldAux d tr
  | d, _ :: tr => delayHeldAux d tr

/-- Whether some inter-sample delay of the trace occurs with the handle open. -/
def delayHeld (tr : List Ev) : Bool := delayHeldAux 0 tr

/-- The first line of a byte string: everything before the first newline. -/
def firstLine (s : Str) : Str := s.takeWhile (· ≠ '\n')

/-- The header line without its terminator. -/
def thermHeaderLine : Str := "index,temperature_C".toList

/-! ## Basic lemmas about the embedding -/

theorem streamChunks_id : ∀ s : Str, streamChunks s = s
  | [] => by rw [streamChunks]
  | c :: rest => by
    rw [streamChunks, streamChunks_id ((c :: rest).drop 256), List.take_append_drop]
termination_by s => s.length
decreasing_by simp only [List.length_drop, List.length_cons]; omega

theorem countEv_append (e : Ev) (a b : List Ev) :
    countEv e (a ++ b) = countEv e a + countEv e b := by
  induction a with
  | nil => simp [countEv]
  | cons x tr ih => simp [countEv, ih]; omega

theorem countEv_loopEvs_evOpen : ∀ n, countEv Ev.evOpen (loopEvs n) = 0 := by
  intro n
  induction n with
  | zero => rfl
  | succ m ih => simp [loopEvs, countEv_append, countEv, ih]

theorem countEv_loopEvs_evClose : ∀ n, countEv Ev.evClose (loopEvs n) = 0 := by
  intro n
  induction n with
  | zero => rfl
  | succ m ih => simp [loopEvs, countEv_append, countEv, ih]

theorem countEv_loopEvs_evHeader : ∀ n, countEv Ev.evHeader (loopEvs n) = 0 := by
  intro n
  induction n with
  | zero => rfl
  | succ m ih => simp [loopEvs, countEv_append, countEv, ih]

theorem not_mem_loopEvs_evOpen : ∀ n, Ev.evOpen ∉ loopEvs n := by
  intro n
  induction n with
  | zero => simp [loopEvs]
  | succ m ih => simp [loopEvs, ih]

theorem not_mem_loopEvs_evClose : ∀ n, Ev.evClose ∉ loopEvs n := by
  intro n
  induction n with
  | zero => simp [loopEvs]
  | succ m ih => simp [loopEvs, ih]

theorem mem_loopEvs_evDelay (n : Nat) (h : 1 ≤ n) : Ev.evDelay ∈ loopEvs n := by
  cases n with
  | zero => omega
  | succ m => simp [loopEvs]

/-! ## Claim theorems: export path -/

/-- Claim C7: invoking the export operation on a path that cannot be opened
always emits exactly the fixed two-line CSV error output
`error,message CRLF ,Could not open file CRLF`, with CRLF line endings. -/
theorem missing_file_export_fixed_csv :
    print_csv_file_only none = "error,message\r\n,Could not open file\r\n".toList :=
  rfl

/-- Claim C8: for every existing file, the bytes written to the sink by the
export operation equal the file's raw contents exactly: the fixed-size chunked
copy loop adds, removes and transforms nothing. -/
theorem export_streams_bytes_verbatim (c : Str) : print_csv_file_only (some c) = c := by
  simp [print_csv_file_only, streamChunks_id]

/-! ## Claim theorems: logging error handling -/

/-- Claim C9: when the persistent store cannot be opened at the start of a
logging call, the call prints a diagnostic and returns: no bytes are written,
no other I/O event occurs, and the file (if any) is unchanged. -/
theorem store_unavailable_soft_failure (file : Option Str) (n : Nat) (fmt : Nat → Str) :
    log_thermistor_samples_csv false file n fmt = (file, [Ev.evDiagFail]) := by
  simp [log_thermistor_samples_csv]

/-! ## Claim theorems: ADC averaging -/

/-- ADC environment in which every conversion reports an error while the
output variable holds 5. -/
def c5ErrEnv : AdcEnv := ⟨fun _ _ => true, fun _ _ => 5⟩

/-- The same environment with no errors reported. -/
def c5OkEnv : AdcEnv := ⟨fun _ _ => false, fun _ _ => 5⟩

/-- Claim C5 counterexample: in an environment where both conversions of an
averaging call with samples = 2 report a hardware error, `adc_read_avg` does
not fail and does not abort: it completes all iterations and returns the same
successful average as in the error-free environment, because the source
discards the status returned by `adc_oneshot_read`. -/
theorem adc_read_avg_error_not_propagated_cex :
    c5ErrEnv.errAt 4 0 = true ∧ c5ErrEnv.errAt 4 1 = true ∧
    adc_read_avg c5ErrEnv 4 2 = some 5 ∧
    adc_read_avg c5ErrEnv 4 2 = adc_read_avg c5OkEnv 4 2 := by
  refine ⟨rfl, rfl, by decide, by decide⟩

/-- Claim C5 amended: `adc_read_avg` ignores the error status reported by the
individual conversions: its result depends only on the raw values left in the
output variable, and for samples ≥ 1 it returns an average even when
conversions report errors — no error is propagated and no iteration aborted. -/
theorem adc_read_avg_error_ignored (env env2 : AdcEnv) (ch : Nat) (samples : Int)
    (h : env.rawAt = env2.rawAt) :
    adc_read_avg env ch samples = adc_read_avg env2 ch samples ∧
    (1 ≤ samples → (adc_read_avg env ch samples).isSome) := by
  constructor
  · unfold adc_read_avg
    rw [h]
  · intro hs
    unfold adc_read_avg cDiv
    have : samples ≠ 0 := by omega
    simp [this]

theorem adc_read_avg_error_ignored_witness :
    (c5ErrEnv.rawAt = c5OkEnv.rawAt) ∧
    adc_read_avg c5ErrEnv 4 2 = adc_read_avg c5OkEnv 4 2 ∧
    (adc_read_avg c5ErrEnv 4 2).isSome := by
  have h := adc_read_avg_error_ignored c5ErrEnv c5OkEnv 4 2 rfl
  exact ⟨rfl, h.1, h.2 (by decide)⟩

/-- ADC environment used to witness the division-by-zero precondition. -/
def c10Env : AdcEnv := ⟨fun _ _ => false, fun _ _ => 0⟩

/-- Claim C10: the final division `sum / samples` of `adc_read_avg` has no
guard, so for nonnegative sample counts the call is well-defined exactly when
samples ≥ 1, and a call with samples = 0 reaches the division by zero. -/
theorem adc_read_avg_div_by_zero_precondition (env : AdcEnv) (ch : Nat) (samples : Int)
    (h : 0 ≤ samples) :
    ((adc_read_avg env ch samples).isSome ↔ 1 ≤ samples) ∧
    adc_read_avg env ch 0 = none := by
  constructor
  · unfold adc_read_avg cDiv
    by_cases h0 : samples = 0
    · simp [h0]
    · simp [h0]
      omega
  · rfl

theorem adc_read_avg_div_by_zero_precondition_witness :
    (0 ≤ (3 : Int)) ∧
    ((adc_read_avg c10Env 0 3).isSome ↔ 1 ≤ (3 : Int)) ∧
    adc_read_avg c10Env 0 0 = none :=
  ⟨by decide, (adc_read_avg_div_by_zero_precondition c10Env 0 3 (by decide)).1,
    (adc_read_avg_div_by_zero_precondition c10Env 0 3 (by decide)).2⟩

theorem range_map_sum_nonneg (f : Nat → Int) :
    ∀ n, (∀ i < n, 0 ≤ f i) → 0 ≤ ((List.range n).map f).sum := by
  intro n
  induction n with
  | zero => simp
  | succ m ih =>
    intro h
    rw [List.range_succ, List.map_append, List.sum_append]
    have h1 : 0 ≤ ((List.range m).map f).sum := ih fun i hi => h i (by omega)
    have h2 : 0 ≤ f m := h m (by omega)
    simp only [List.map_cons, List.map_nil, List.sum_cons, List.sum_nil, add_zero]
    omega

theorem range_map_sum_le (f : Nat → Int) (M : Int) :
    ∀ n, (∀ i < n, f i ≤ M) → ((List.range n).map f).sum ≤ M * n := by
  intro n
  induction n with
  | zero => simp
  | succ m ih =>
    intro h
    rw [List.range_succ, List.map_append, List.sum_append]
    have h1 : ((List.range m).map f).sum ≤ M * m := ih fun i hi => h i (by omega)
    have h2 : f m ≤ M := h m (by omega)
    simp only [List.map_cons, List.map_nil, List.sum_cons, List.sum_nil, add_zero]
    push_cast
    nlinarith

theorem range_map_sum_const (c : Int) : ∀ n : Nat,
    ((List.range n).map fun _ => c).sum = c * n := by
  intro n
  induction n with
  | zero => simp
  | succ m ih =>
    rw [List.range_succ, List.map_append, List.sum_append, ih]
    simp
    ring

theorem wrap32_eq_self (x : Int) (h1 : -2147483648 ≤ x) (h2 : x ≤ 2147483647) :
    wrap32 x = x := by
  unfold wrap32
  omega

theorem wrap32_add_left (a b : Int) : wrap32 (wrap32 a + b) = wrap32 (a + b) := by
  unfold wrap32
  omega

theorem sum32_const (c : Int) : ∀ n : Nat, sum32 (fun _ => c) n = wrap32 (c * n) := by
  intro n
  induction n with
  | zero =>
    show (0 : Int) = wrap32 (c * ((0 : Nat) : Int))
    simp only [Nat.cast_zero, mul_zero]
    unfold wrap32
    omega
  | succ m ih =>
    show wrap32 (sum32 (fun _ => c) m + c) = wrap32 (c * (m + 1 : Nat))
    rw [ih, wrap32_add_left]
    have : c * ((m : Nat) + 1 : Nat) = c * m + c := by push_cast; ring
    rw [this]

theorem sum32_eq_sum_of_bounded (f : Nat → Int) :
    ∀ n, (∀ i < n, 0 ≤ f i) → ((List.range n).map f).sum ≤ 2147483647 →
    sum32 f n = ((List.range n).map f).sum := by
  intro n
  induction n with
  | zero => intro _ _; rfl
  | succ m ih =>
    intro h hle
    have hsplit : ((List.range (m + 1)).map f).sum = ((List.range m).map f).sum + f m := by
      rw [List.range_succ, List.map_append, List.sum_append]
      simp
    have hfm : 0 ≤ f m := h m (by omega)
    have hm0 : 0 ≤ ((List.range m).map f).sum :=
      range_map_sum_nonneg f m fun i hi => h i (by omega)
    have hmle : ((List.range m).map f).sum ≤ 2147483647 := by omega
    show wrap32 (sum32 f m + f m) = ((List.range (m + 1)).map f).sum
    rw [ih (fun i hi => h i (by omega)) hmle, ← hsplit]
    exact wrap32_eq_self _ (by omega) (by omega)

/-- ADC environment delivering the maximal in-range raw value 4095 on every
conversion. -/
def c3OvEnv : AdcEnv := ⟨fun _ _ => false, fun _ _ => 4095⟩

/-- Claim C3 counterexample: at count 600000 with every raw sample equal to
4095 (all in [0, ADC_MAX]), the 32-bit `long` accumulator wraps (the true sum
4095 * 600000 = 2457000000 exceeds 2^31 - 1), and `adc_read_avg` returns
-3063 — not the truncated integer mean 4095 and not in [0, ADC_MAX]. -/
theorem adc_read_avg_overflow_cex :
    (1 ≤ (600000 : Int)) ∧
    (∀ i < (600000 : Int).toNat, 0 ≤ c3OvEnv.rawAt 4 i ∧ c3OvEnv.rawAt 4 i ≤ ADC_MAX) ∧
    adc_read_avg c3OvEnv 4 600000 = some (-3063) ∧
    (((List.range (600000 : Int).toNat).map (c3OvEnv.rawAt 4)).sum).tdiv 600000 = 4095 ∧
    ¬(0 ≤ (-3063 : Int)) := by
  have hsum : sum32 (c3OvEnv.rawAt 4) (600000 : Int).toNat = -1837967296 :=
    (sum32_const 4095 600000).trans (by decide)
  have hmath : ((List.range (600000 : Int).toNat).map (c3OvEnv.rawAt 4)).sum
      = 4095 * 600000 := by
    have h := range_map_sum_const (4095 : Int) 600000
    exact h
  refine ⟨by decide,
    fun i _ => ⟨show (0 : Int) ≤ 4095 by decide, show (4095 : Int) ≤ ADC_MAX by decide⟩,
    ?_, ?_, by decide⟩
  · unfold adc_read_avg cDiv
    rw [hsum]
    decide
  · rw [hmath]
    decide

/-- Claim C3 amended: for count ≥ 1, when every raw sample read during the
call lies in [0, ADC_MAX] and the mathematical sum of those samples does not
exceed the 32-bit accumulator maximum 2^31 - 1 (no overflow of the C `long
sum`; automatic for counts up to 524416), the value returned by `adc_read_avg`
is the truncated integer mean of the samples and lies in [0, ADC_MAX].
Without the no-overflow condition the conclusion fails (see the overflow
counterexample at count 600000). -/
theorem adc_read_avg_mean_in_range (env : AdcEnv) (ch : Nat) (samples : Int)
    (h1 : 1 ≤ samples)
    (h2 : ∀ i < samples.toNat, 0 ≤ env.rawAt ch i ∧ env.rawAt ch i ≤ ADC_MAX)
    (h3 : ((List.range samples.toNat).map (env.rawAt ch)).sum ≤ 2147483647) :
    adc_read_avg env ch samples
      = some ((((List.range samples.toNat).map (env.rawAt ch)).sum).tdiv samples) ∧
    ∀ v, adc_read_avg env ch samples = some v → 0 ≤ v ∧ v ≤ ADC_MAX := by
  have hne : samples ≠ 0 := by omega
  have hacc : sum32 (env.rawAt ch) samples.toNat
      = ((List.range samples.toNat).map (env.rawAt ch)).sum :=
    sum32_eq_sum_of_bounded (env.rawAt ch) samples.toNat (fun i hi => (h2 i hi).1) h3
  have heq : adc_read_avg env ch samples
      = some ((((List.range samples.toNat).map (env.rawAt ch)).sum).tdiv samples) := by
    unfold adc_read_avg cDiv
    rw [hacc]
    simp [hne]
  refine ⟨heq, fun v hv => ?_⟩
  rw [heq] at hv
  have hsum0 : 0 ≤ ((List.range samples.toNat).map (env.rawAt ch)).sum :=
    range_map_sum_nonneg _ _ fun i hi => (h2 i hi).1
  have hsumM : ((List.range samples.toNat).map (env.rawAt ch)).sum
      ≤ ADC_MAX * samples.toNat :=
    range_map_sum_le _ _ _ fun i hi => (h2 i hi).2
  have hcast : (samples.toNat : Int) = samples := Int.toNat_of_nonneg (by omega)
  rw [hcast] at hsumM
  have htdiv : (((List.range samples.toNat).map (env.rawAt ch)).sum).tdiv samples
      = ((List.range samples.toNat).map (env.rawAt ch)).sum / samples :=
    Int.tdiv_eq_ediv hsum0 (by omega)
  have hv2 : v = ((List.range samples.toNat).map (env.rawAt ch)).sum / samples := by
    rw [htdiv] at hv
    exact (Option.some_inj.mp hv).symm
  subst hv2
  constructor
  · exact Int.ediv_nonneg hsum0 (by omega)
  · calc ((List.range samples.toNat).map (env.rawAt ch)).sum / samples
        ≤ ADC_MAX * samples / samples := Int.ediv_le_ediv (by omega) hsumM
      _ = ADC_MAX := Int.mul_ediv_cancel ADC_MAX hne

/-- ADC environment used to witness the averaging claim: raw values 100, 101. -/
def c3Env : AdcEnv := ⟨fun _ _ => false, fun _ i => 100 + i⟩

theorem adc_read_avg_mean_in_range_witness :
    (1 ≤ (2 : Int)) ∧
    (∀ i < (2 : Int).toNat, 0 ≤ c3Env.rawAt 4 i ∧ c3Env.rawAt 4 i ≤ ADC_MAX) ∧
    (((List.range (2 : Int).toNat).map (c3Env.rawAt 4)).sum ≤ 2147483647) ∧
    adc_read_avg c3Env 4 2 = some 100 ∧ 0 ≤ (100 : Int) ∧ (100 : Int) ≤ ADC_MAX := by
  have h := adc_read_avg_mean_in_range c3Env 4 2 (by decide) (by decide) (by decide)
  have heval : adc_read_avg c3Env 4 2 = some 100 := by
    rw [h.1]
    decide
  exact ⟨by decide, by decide, by decide, heval, (h.2 100 heval).1, (h.2 100 heval).2⟩

theorem log_step_empty (file : Option Str) (n : Nat) (fmt : Nat → Str)
    (h : file = none ∨ file = some []) :
    log_thermistor_samples_csv true file n fmt
      = (some (thermHeader ++ (thermRowList fmt n).flatten),
          Ev.evOpen :: (Ev.evHeader :: (loopEvs n ++ [Ev.evClose]))) := by
  rcases h with h | h <;> subst h <;> simp [log_thermistor_samples_csv]

theorem log_step_nonempty (s : Str) (hs : s ≠ []) (n : Nat) (fmt : Nat → Str) :
    log_thermistor_samples_csv true (some s) n fmt
      = (some (s ++ (thermRowList fmt n).flatten),
          Ev.evOpen :: (loopEvs n ++ [Ev.evClose])) := by
  have hlen : s.length ≠ 0 := by simpa using hs
  simp [log_thermistor_samples_csv, hlen]

/-- Claim C1: a successful run of the thermistor logger with n samples on an
empty (or absent) store produces exactly the header followed by the n data
rows of iterations 0 .. n-1 in call order. -/
theorem thermistor_log_empty_store_content (file : Option Str) (n : Nat)
    (fmt : Nat → Str) (h : file = none ∨ file = some []) :
    (log_thermistor_samples_csv true file n fmt).1
      = some (thermHeader ++ (thermRowList fmt n).flatten) ∧
    (thermRowList fmt n).length = n := by
  rw [log_step_empty file n fmt h]
  simp [thermRowList]

/-- Rendered temperature strings for the one-row scenario of claim C1: the
iteration-0 temperature renders as 24.98. -/
def c1Fmt : Nat → Str := fun _ => "24.98".toList

theorem thermistor_log_empty_store_content_witness :
    ((some [] : Option Str) = none ∨ (some [] : Option Str) = some ([] : Str)) ∧
    (log_thermistor_samples_csv true (some []) 1 c1Fmt).1
      = some (thermHeader ++ (thermRowList c1Fmt 1).flatten) ∧
    (log_thermistor_samples_csv true (some []) 1 c1Fmt).1
      = some "index,temperature_C\n#0, 24.98°C\n".toList := by
  have h := thermistor_log_empty_store_content (some []) 1 c1Fmt (Or.inr rfl)
  refine ⟨Or.inr rfl, h.1, ?_⟩
  rw [h.1]
  decide

theorem takeWhile_all_append (p : Char → Bool) :
    ∀ (xs ys : Str), (∀ x ∈ xs, p x) → (xs ++ ys).takeWhile p = xs ++ ys.takeWhile p := by
  intro xs
  induction xs with
  | nil => simp
  | cons c tr ih =>
    intro ys h
    have hc : p c := h c (by simp)
    have ih2 := ih ys fun x hx => h x (by simp [hx])
    simp [List.takeWhile_cons, hc, ih2]

theorem firstLine_header_append (r : Str) :
    firstLine (thermHeader ++ r) = thermHeaderLine := by
  have hsplit : thermHeader = thermHeaderLine ++ ['\n'] := by decide
  rw [hsplit, List.append_assoc]
  unfold firstLine
  rw [takeWhile_all_append _ _ _ (by decide)]
  simp [List.takeWhile_cons]

theorem thermHeader_ne_nil : thermHeader ≠ [] := by decide

theorem runLogTr_nonempty_inv :
    ∀ (cs : List (Nat × (Nat → Str))) (rest : Str) (tr0 : List Ev),
    ∃ rest2,
      (runLogTr (some (thermHeader ++ rest), tr0) cs).1 = some (thermHeader ++ rest2) ∧
      countEv Ev.evHeader (runLogTr (some (thermHeader ++ rest), tr0) cs).2
        = countEv Ev.evHeader tr0 := by
  intro cs
  induction cs with
  | nil => exact fun rest tr0 => ⟨rest, rfl, rfl⟩
  | cons c cs ih =>
    intro rest tr0
    obtain ⟨n, fmt⟩ := c
    have hne : thermHeader ++ rest ≠ [] := by
      simp [thermHeader_ne_nil]
    have hstep := log_step_nonempty (thermHeader ++ rest) hne n fmt
    have hunfold : runLogTr (some (thermHeader ++ rest), tr0) ((n, fmt) :: cs)
        = runLogTr (some (thermHeader ++ (rest ++ (thermRowList fmt n).flatten)),
            tr0 ++ (Ev.evOpen :: (loopEvs n ++ [Ev.evClose]))) cs := by
      show runLogTr
          ((log_thermistor_samples_csv true (some (thermHeader ++ rest)) n fmt).1,
            tr0 ++ (log_thermistor_samples_csv true (some (thermHeader ++ rest)) n fmt).2)
          cs = _
      rw [hstep]
      simp [List.append_assoc]
    rw [hunfold]
    obtain ⟨rest2, h1, h2⟩ := ih (rest ++ (thermRowList fmt n).flatten)
      (tr0 ++ (Ev.evOpen :: (loopEvs n ++ [Ev.evClose])))
    refine ⟨rest2, h1, ?_⟩
    rw [h2, countEv_append]
    simp [countEv, countEv_append, countEv_loopEvs_evHeader]

/-- Claim C4: appending to an already non-empty log file never writes the
header again; over the whole lifetime of a file created by any non-empty
sequence of successful logging calls starting from an absent store, the header
is written exactly once (determined by the file having size 0 at open time),
and whenever the resulting file is non-empty its first line is the fixed
header `index,temperature_C`. -/
theorem thermistor_log_header_once (cs : List (Nat × (Nat → Str))) (s : Str)
    (n : Nat) (fmt : Nat → Str) (hcs : cs ≠ []) (hs : s ≠ []) :
    countEv Ev.evHeader (log_thermistor_samples_csv true (some s) n fmt).2 = 0 ∧
    countEv Ev.evHeader (runLogTr (none, []) cs).2 = 1 ∧
    ∀ t, (runLogTr (none, []) cs).1 = some t → t ≠ [] ∧ firstLine t = thermHeaderLine := by
  refine ⟨?_, ?_⟩
  · rw [log_step_nonempty s hs n fmt]
    simp [countEv, countEv_append, countEv_loopEvs_evHeader]
  · cases cs with
    | nil => exact absurd rfl hcs
    | cons c cs2 =>
      obtain ⟨m, fm⟩ := c
      have hstep := log_step_empty none m fm (Or.inl rfl)
      have hshow : runLogTr ((none : Option Str), ([] : List Ev)) ((m, fm) :: cs2)
          = runLogTr ((log_thermistor_samples_csv true none m fm).1,
              [] ++ (log_thermistor_samples_csv true none m fm).2) cs2 := rfl
      rw [hshow, hstep]
      simp only [List.nil_append]
      obtain ⟨rest2, h1, h2⟩ := runLogTr_nonempty_inv cs2 ((thermRowList fm m).flatten)
        (Ev.evOpen :: (Ev.evHeader :: (loopEvs m ++ [Ev.evClose])))
      refine ⟨?_, ?_⟩
      · rw [h2]
        simp [countEv, countEv_append, countEv_loopEvs_evHeader]
      · intro t ht
        rw [h1] at ht
        have ht2 : t = thermHeader ++ rest2 := (Option.some_inj.mp ht).symm
        subst ht2
        refine ⟨by simp [thermHeader_ne_nil], firstLine_header_append rest2⟩

/-- Rendered temperature strings for the claim C4 witness. -/
def c4Fmt : Nat → Str := fun _ => "25.01".toList

theorem thermistor_log_header_once_witness :
    (([((1 : Nat), c4Fmt)] : List (Nat × (Nat → Str))) ≠ []) ∧
    (("x".toList : Str) ≠ []) ∧
    countEv Ev.evHeader (log_thermistor_samples_csv true (some "x".toList) 1 c4Fmt).2 = 0 ∧
    countEv Ev.evHeader (runLogTr (none, []) [((1 : Nat), c4Fmt)]).2 = 1 ∧
    ∀ t, (runLogTr (none, []) [((1 : Nat), c4Fmt)]).1 = some t
      → t ≠ [] ∧ firstLine t = thermHeaderLine := by
  have h := thermistor_log_header_once [((1 : Nat), c4Fmt)] "x".toList 1 c4Fmt
    (by simp) (by simp)
  exact ⟨by simp, by simp, h.1, h.2.1, h.2.2⟩

theorem getLast?_append_singleton (l : List Ev) (a : Ev) : (l ++ [a]).getLast? = some a := by
  simp

theorem delayHeldAux_true_of (d : Nat) :
    ∀ xs : List Ev, 0 < d → Ev.evOpen ∉ xs → Ev.evClose ∉ xs → Ev.evDelay ∈ xs →
    ∀ tr, delayHeldAux d (xs ++ tr) = true := by
  intro xs
  induction xs with
  | nil => intro _ _ _ hmem; simp at hmem
  | cons x tr2 ih =>
    intro hd hno hnc hmem tr
    cases x with
    | evOpen => simp at hno
    | evClose => simp at hnc
    | evDelay => simp [delayHeldAux, hd]
    | evHeader =>
      have : Ev.evDelay ∈ tr2 := by simpa using hmem
      simpa [delayHeldAux] using ih hd (by simp at hno ⊢; tauto) (by simp at hnc ⊢; tauto) this tr
    | evProgress =>
      have : Ev.evDelay ∈ tr2 := by simpa using hmem
      simpa [delayHeldAux] using ih hd (by simp at hno ⊢; tauto) (by simp at hnc ⊢; tauto) this tr
    | evRow i =>
      have : Ev.evDelay ∈ tr2 := by simpa using hmem
      simpa [delayHeldAux] using ih hd (by simp at hno ⊢; tauto) (by simp at hnc ⊢; tauto) this tr
    | evFlush =>
      have : Ev.evDelay ∈ tr2 := by simpa using hmem
      simpa [delayHeldAux] using ih hd (by simp at hno ⊢; tauto) (by simp at hnc ⊢; tauto) this tr
    | evDiagFail =>
      have : Ev.evDelay ∈ tr2 := by simpa using hmem
      simpa [delayHeldAux] using ih hd (by simp at hno ⊢; tauto) (by simp at hnc ⊢; tauto) this tr

/-- Rendered temperature strings for the claim C6 counterexample. -/
def c6Fmt : Nat → Str := fun _ => "24.11".toList

/-- Claim C6 counterexample: in a successful two-sample logging call on an
empty store, the trace opens the handle first and closes it last, with both
inter-sample delays strictly inside: the store handle is held open during the
inter-sample delay between iterations, contrary to the claim. -/
theorem thermistor_log_delay_handle_cex :
    (log_thermistor_samples_csv true (some []) 2 c6Fmt).2
      = [Ev.evOpen, Ev.evHeader, Ev.evProgress, Ev.evRow 0, Ev.evFlush, Ev.evDelay,
          Ev.evProgress, Ev.evRow 1, Ev.evFlush, Ev.evDelay, Ev.evClose] ∧
    delayHeld (log_thermistor_samples_csv true (some []) 2 c6Fmt).2 = true := by
  refine ⟨by decide, by decide⟩

/-- Claim C6 amended: the logging component acquires the store handle exactly
once per logging call and releases it exactly once, at the end of the call
(the close is the last event), so no handle remains held between logical
logging calls; however, within a call with at least one sample, the
inter-sample delay occurs while the handle is held open, so a concurrent
reader can access the file only between calls, not between iterations of one
call. -/
theorem thermistor_log_handle_per_call (file : Option Str) (n : Nat) (fmt : Nat → Str) :
    countEv Ev.evOpen (log_thermistor_samples_csv true file n fmt).2 = 1 ∧
    countEv Ev.evClose (log_thermistor_samples_csv true file n fmt).2 = 1 ∧
    (log_thermistor_samples_csv true file n fmt).2.getLast? = some Ev.evClose ∧
    (1 ≤ n → delayHeld (log_thermistor_samples_csv true file n fmt).2 = true) := by
  have hshape : ∃ hevs : List Ev,
      (hevs = [] ∨ hevs = [Ev.evHeader]) ∧
      (log_thermistor_samples_csv true file n fmt).2
        = Ev.evOpen :: (hevs ++ loopEvs n ++ [Ev.evClose]) := by
    by_cases h0 : (file.getD []).length = 0
    · exact ⟨[Ev.evHeader], Or.inr rfl, by simp [log_thermistor_samples_csv, h0]⟩
    · exact ⟨[], Or.inl rfl, by simp [log_thermistor_samples_csv, h0]⟩
  obtain ⟨hevs, hcase, htr⟩ := hshape
  have hhno : Ev.evOpen ∉ hevs := by
    rcases hcase with h | h <;> subst h <;> simp
  have hhnc : Ev.evClose ∉ hevs := by
    rcases hcase with h | h <;> subst h <;> simp
  have hcntO : countEv Ev.evOpen hevs = 0 := by
    rcases hcase with h | h <;> subst h <;> rfl
  have hcntC : countEv Ev.evClose hevs = 0 := by
    rcases hcase with h | h <;> subst h <;> rfl
  rw [htr]
  refine ⟨?_, ?_, ?_, ?_⟩
  · simp [countEv, countEv_append, hcntO, countEv_loopEvs_evOpen]
  · simp [countEv, countEv_append, hcntC, countEv_loopEvs_evClose]
  · have : Ev.evOpen :: (hevs ++ loopEvs n ++ [Ev.evClose])
        = (Ev.evOpen :: (hevs ++ loopEvs n)) ++ [Ev.evClose] := by
      simp [List.append_assoc]
    rw [this]
    exact getLast?_append_singleton _ _
  · intro hn
    show delayHeldAux 0 (Ev.evOpen :: (hevs ++ loopEvs n ++ [Ev.evClose])) = true
    have hstep : delayHeldAux 0 (Ev.evOpen :: (hevs ++ loopEvs n ++ [Ev.evClose]))
        = delayHeldAux 1 ((hevs ++ loopEvs n) ++ [Ev.evClose]) := by
      simp [delayHeldAux, List.append_assoc]
    rw [hstep]
    refine delayHeldAux_true_of 1 (hevs ++ loopEvs n) (by omega) ?_ ?_ ?_ [Ev.evClose]
    · simp [hhno, not_mem_loopEvs_evOpen]
    · simp [hhnc, not_mem_loopEvs_evClose]
    · exact List.mem_append_right hevs (mem_loopEvs_evDelay n hn)

/-- Rendered temperature strings for the claim C6 amended witness. -/
def c6wFmt : Nat → Str := fun _ => "23.50".toList

theorem thermistor_log_handle_per_call_witness :
    countEv Ev.evOpen (log_thermistor_samples_csv true none 1 c6wFmt).2 = 1 ∧
    countEv Ev.evClose (log_thermistor_samples_csv true none 1 c6wFmt).2 = 1 ∧
    (log_thermistor_samples_csv true none 1 c6wFmt).2.getLast? = some Ev.evClose ∧
    delayHeld (log_thermistor_samples_csv true none 1 c6wFmt).2 = true := by
  have h := thermistor_log_handle_per_call none 1 c6wFmt
  exact ⟨h.1, h.2.1, h.2.2.1, h.2.2.2 (by decide)⟩

/-- Claim C2: when the raw averaged ADC code corresponds to a thermistor
resistance of exactly R_reference = 10000 ohms in the voltage-divider model
(equivalently, the divider reads V_supply / 2), the computed temperature is
exactly 25 degrees Celsius in the exact-arithmetic idealization of the
source's float computation (hence 25.0 within floating-point tolerance). -/
theorem thermistor_celsius_at_reference_resistance (raw : ℝ)
    (h : 10000 * (raw * 3.3 / 4095) / (3.3 - raw * 3.3 / 4095) = 10000) :
    thermistor_celsius raw = 25 := by
  unfold thermistor_celsius
  rw [h]
  norm_num [Real.log_one]

theorem thermistor_celsius_at_reference_resistance_witness :
    (10000 * ((4095 / 2 : ℝ) * 3.3 / 4095) / (3.3 - (4095 / 2 : ℝ) * 3.3 / 4095) = 10000) ∧
    thermistor_celsius (4095 / 2) = 25 := by
  have hhyp : 10000 * ((4095 / 2 : ℝ) * 3.3 / 4095) / (3.3 - (4095 / 2 : ℝ) * 3.3 / 4095)
      = 10000 := by norm_num
  exact ⟨hhyp, thermistor_celsius_at_reference_resistance (4095 / 2) hhyp⟩
